import Mathlib

/-!
# Verification of `show_samples.py`

A shallow embedding of the repository's single script.  The script loads a
JSON object mapping icon ids to item records, prints up to 10 sample entries
for each of the four fixed categories (weapons, armor, food, resources), and
then prints a count of records per distinct category, sorted by category name.

JSON values parsed by `json.load` are modelled by the inductive `Json`.
Python dictionaries (both the top-level catalog and each record) are modelled
as association lists in insertion order, which is how CPython dicts iterate.
Runtime errors (KeyError, AttributeError, TypeError, FileNotFoundError,
json.JSONDecodeError) are modelled by `PyErr`; output printed before a crash
is retained, since Python prints eagerly.
-/

namespace ShowSamples

/-- A parsed JSON value, as returned by `json.load`.  Objects keep their
fields in insertion order, the iteration order of CPython dicts. -/
inductive Json where
  | null
  | bool (b : Bool)
  | num (n : Int)
  | str (s : String)
  | arr (elems : List Json)
  | obj (fields : List (String × Json))

/-- The Python runtime errors the script can raise.  `keyError k` is
`KeyError(k)` from a dict subscript, `attrError` is the `AttributeError`
raised by `.items()` / `.values()` on a non-dict, `typeError` is the
`TypeError` from subscripting a non-dict with a string key,
`parseError` is `json.JSONDecodeError` and `notFoundError` is
`FileNotFoundError` from `open`. -/
inductive PyErr where
  | keyError (k : String)
  | attrError
  | typeError
  | parseError
  | notFoundError
deriving DecidableEq, Repr

/-- First-match association-list lookup; on the duplicate-free field lists
produced by `json.load` this is exactly Python dict lookup. -/
def lookupField : List (String × Json) → String → Option Json
  | [], _ => none
  | (k, v) :: rest, key => if k = key then some v else lookupField rest key

/-- `v[key]` on a parsed JSON value: a KeyError when the key is absent from a
dict, a TypeError when `v` is not a dict at all. -/
def getKey (v : Json) (key : String) : Except PyErr Json :=
  match v with
  | .obj fields =>
    match lookupField fields key with
    | some x => .ok x
    | none => .error (.keyError key)
  | _ => .error .typeError

mutual

/-- Python `str(x)` on a parsed JSON value, as interpolated by the script's
f-strings: strings print verbatim, every other value prints as its repr. -/
def pyStr : Json → String
  | .str s => s
  | j => pyRepr j

/-- Python `repr(x)` on a parsed JSON value. -/
def pyRepr : Json → String
  | .null => "None"
  | .bool true => "True"
  | .bool false => "False"
  | .num n => toString n
  | .str s => "'" ++ s ++ "'"
  | .arr xs => "[" ++ String.intercalate ", " (pyReprList xs) ++ "]"
  | .obj fs => "\x7b" ++ String.intercalate ", " (pyReprFields fs) ++ "\x7d"

/-- `repr` of each element of a Python list. -/
def pyReprList : List Json → List String
  | [] => []
  | x :: xs => pyRepr x :: pyReprList xs

/-- `repr` of each key/value pair of a Python dict. -/
def pyReprFields : List (String × Json) → List String
  | [] => []
  | (k, v) :: fs => ("'" ++ k ++ "': " ++ pyRepr v) :: pyReprFields fs

end

/-- `data.items()`: the key/value pairs of a dict in insertion order; an
AttributeError on any other value. -/
def items : Json → Except PyErr (List (String × Json))
  | .obj fields => .ok fields
  | _ => .error .attrError

/-- `data.values()`: the values of a dict in insertion order; an
AttributeError on any other value. -/
def pyValues : Json → Except PyErr (List Json)
  | .obj fields => .ok (fields.map Prod.snd)
  | _ => .error .attrError

/-! ## Sampling (lines 7-25 of `show_samples.py`)

Each sample section prints a header and then runs the comprehension
`[(k, v) for k, v in data.items() if v['category'] == cat][:limit]`,
printing `  Icon{k}: {v['name']}` for each selected pair.  The script
instantiates this four times with `limit = 10` and the categories
`weapons`, `armor`, `food`, `resources`. -/

/-- The comprehension body: keep the pairs whose `category` field equals
`cat`.  Python evaluates `v['category']` left to right over the whole
catalog, so the first record on which the subscript raises aborts the
comprehension with that error; a present but non-string `category` simply
compares unequal to the string `cat` (no error). -/
def filterCat (cat : String) : List (String × Json) → Except PyErr (List (String × Json))
  | [] => .ok []
  | (k, v) :: rest =>
    match getKey v "category" with
    | .error e => .error e
    | .ok c =>
      match filterCat cat rest with
      | .error e => .error e
      | .ok tail =>
        .ok (match c with
             | .str s => if s = cat then (k, v) :: tail else tail
             | _ => tail)

/-- `sampleByCategory`: the comprehension followed by the `[:limit]` slice. -/
def sampleByCategory (kvs : List (String × Json)) (cat : String) (limit : Nat) :
    Except PyErr (List (String × Json)) :=
  (filterCat cat kvs).map (fun l => l.take limit)

/-- The print loop of a sample section: one line `  Icon{k}: {v['name']}` per
selected pair.  Output produced before a `KeyError`/`TypeError` on `v['name']`
is kept, since Python prints eagerly. -/
def sampleLines : List (String × Json) → List String × Option PyErr
  | [] => ([], none)
  | (k, v) :: rest =>
    match getKey v "name" with
    | .error e => ([], some e)
    | .ok n =>
      let r := sampleLines rest
      (("  Icon" ++ k ++ ": " ++ pyStr n) :: r.1, r.2)

/-- One sample section: print the header, evaluate the comprehension over
`data.items()`, slice to 10, print the selected lines. -/
def sampleSection (data : Json) (header cat : String) : List String × Option PyErr :=
  match (items data).bind (filterCat cat) with
  | .error e => ([header], some e)
  | .ok sel =>
    let r := sampleLines (sel.take 10)
    (header :: r.1, r.2)

/-! ## Category counts (lines 28-35 of `show_samples.py`) -/

/-- Python dict keys must be hashable; lists and dicts are not, so
`categories.get(cat, 0)` raises `TypeError` on them. -/
def hashable : Json → Bool
  | .arr _ => false
  | .obj _ => false
  | _ => true

/-- Equality test used for dict key lookup, restricted to the hashable keys
that can actually be stored (`countLoop` checks `hashable` first, as Python
hashes the key before comparing).  Python's cross-type numeric equality
(`True == 1`) is not modelled; every claim concerns string keys, on which
`==` is plain string equality. -/
def keyEq (a b : Json) : Bool :=
  match a, b with
  | .null, .null => true
  | .bool x, .bool y => x == y
  | .num x, .num y => x == y
  | .str x, .str y => x == y
  | _, _ => false

/-- `categories[cat] = categories.get(cat, 0) + 1` on the association-list
model of the dict: update the entry in place if the key is present, else
append it, preserving CPython dict insertion order. -/
def bump : List (Json × Nat) → Json → List (Json × Nat)
  | [], c => [(c, 1)]
  | (c', n) :: rest, c =>
    if keyEq c' c then (c', n + 1) :: rest else (c', n) :: bump rest c

/-- The tally loop over `data.values()`: look up `v['category']` and bump its
count.  A missing/ill-typed subscript or an unhashable category aborts with
the corresponding error. -/
def countLoop : List Json → List (Json × Nat) → Except PyErr (List (Json × Nat))
  | [], acc => .ok acc
  | v :: rest, acc =>
    match getKey v "category" with
    | .error e => .error e
    | .ok c => if hashable c then countLoop rest (bump acc c) else .error .typeError

/-- `countByCategory`: the tally loop started from the empty dict. -/
def countByCategory (vals : List Json) : Except PyErr (List (Json × Nat)) :=
  countLoop vals []

/-- Python `<` on single characters: comparison of Unicode code points. -/
def strLtAux : List Char → List Char → Bool
  | [], [] => false
  | [], _ :: _ => true
  | _ :: _, [] => false
  | a :: as, b :: bs => if a < b then true else if b < a then false else strLtAux as bs

/-- Python `<` on strings: lexicographic comparison of code-point sequences.
Proved below (`strLt_iff`) to agree with the standard order on `String`. -/
def strLt (a b : String) : Bool := strLtAux a.toList b.toList

/-- Python `<` on the `(category, count)` tuples yielded by
`categories.items()`: lexicographic, keys first. -/
def pairLt (a b : String × Nat) : Bool :=
  strLt a.1 b.1 || (a.1 == b.1 && a.2 < b.2)

/-- Stable insertion of `a` into an already sorted list: `a` passes every
element strictly below it and lands before the first element not below it,
so equal elements keep their original relative order, as in Python's stable
`sorted`. -/
def insertPair (a : String × Nat) : List (String × Nat) → List (String × Nat)
  | [] => [a]
  | b :: rest => if pairLt b a then b :: insertPair a rest else a :: b :: rest

/-- Stable insertion sort by `pairLt`.  Python's `sorted` is a stable sort by
`<`, and any two stable sorts by the same strict order agree pointwise. -/
def sortPairs : List (String × Nat) → List (String × Nat)
  | [] => []
  | a :: rest => insertPair a (sortPairs rest)

/-- Extract the string of every key, or `none` if some key is not a string. -/
def strKeyPairs : List (Json × Nat) → Option (List (String × Nat))
  | [] => some []
  | (.str s, n) :: rest => (strKeyPairs rest).map (fun l => (s, n) :: l)
  | _ => none

/-- `sorted(categories.items())`.  Comparing a non-string key against a
string key raises `TypeError` in Python; this is modelled as `TypeError`
whenever some key is not a string.  (A catalog whose categories were all
numbers would sort numerically in Python instead; the script's data model
has string categories and no claim exercises that corner.) -/
def sortCounts (m : List (Json × Nat)) : Except PyErr (List (String × Nat)) :=
  match strKeyPairs m with
  | some sm => .ok (sortPairs sm)
  | none => .error .typeError

/-- One summary line `  {category}: {count} items` per sorted pair. -/
def countLines (sm : List (String × Nat)) : List String :=
  sm.map (fun p => "  " ++ p.1 ++ ": " ++ toString p.2 ++ " items")

def summaryHeader : String := "\n📊 CATEGORY SUMMARY:"

/-- The summary part of the script: build the tally over `data.values()`
(lines 28-31; an error here precedes any summary output), then print the
header and the sorted per-category lines (lines 33-35). -/
def countsSection (data : Json) : List String × Option PyErr :=
  match (pyValues data).bind countByCategory with
  | .error e => ([], some e)
  | .ok m =>
    match sortCounts m with
    | .error e => ([summaryHeader], some e)
    | .ok sm => (summaryHeader :: countLines sm, none)

/-! ## The whole script -/

/-- Sequencing of two print-producing steps: if the first raised, its output
stands and the second never runs; otherwise outputs concatenate. -/
def seqOut (a : List String × Option PyErr) (b : Unit → List String × Option PyErr) :
    List String × Option PyErr :=
  match a with
  | (ls, some e) => (ls, some e)
  | (ls, none) => ((ls ++ (b ()).1, (b ()).2))

def weaponsHeader : String := "🗡️ SAMPLE WEAPONS:"

def armorHeader : String := "\n🛡️ SAMPLE ARMOR:"

def foodHeader : String := "\n🍖 SAMPLE FOOD:"

def resourcesHeader : String := "\n⛏️ SAMPLE RESOURCES:"

/-- Everything after a successful `json.load`: the four sample sections with
`limit = 10`, then the category summary.  Returns the lines printed to
standard output and the uncaught exception, if any. -/
def scriptRun (data : Json) : List String × Option PyErr :=
  seqOut (sampleSection data weaponsHeader "weapons") fun _ =>
  seqOut (sampleSection data armorHeader "armor") fun _ =>
  seqOut (sampleSection data foodHeader "food") fun _ =>
  seqOut (sampleSection data resourcesHeader "resources") fun _ =>
  countsSection data

/-- The outcome of lines 4-5 (`open` + `json.load`), abstracting the file
system: `notFound` when the path does not exist (`open` raises
`FileNotFoundError`), `parseFail` when the content is not syntactically valid
JSON (`json.load` raises `JSONDecodeError`), `ok j` when `json.load` returns
the parsed value `j`. -/
inductive LoadResult where
  | notFound
  | parseFail
  | ok (j : Json)

/-- The whole program: a load failure is raised before anything is printed;
otherwise the report runs on the parsed value. -/
def runProgram : LoadResult → List String × Option PyErr
  | .notFound => ([], some .notFoundError)
  | .parseFail => ([], some .parseError)
  | .ok j => scriptRun j

/-- Process exit status: Python exits 0 when the script runs to completion
and 1 when an uncaught exception terminates it. -/
def exitCode (r : List String × Option PyErr) : Nat :=
  match r.2 with
  | some _ => 1
  | none => 0

/-! ## Specification-side characterizations -/

/-- The comprehension's test `v['category'] == cat` as a total predicate, for
records on which the subscript does not raise: true exactly when the
`category` field is the string `cat`. -/
def matchesCat (v : Json) (cat : String) : Bool :=
  match getKey v "category" with
  | .ok (.str s) => s = cat
  | _ => false

/-- The keys of the tally dict, in insertion order. -/
def keysOf (m : List (Json × Nat)) : List Json :=
  m.map Prod.fst

/-- `categories.get(c, 0)`: the stored count of `c`, or 0 if absent. -/
def lookupCount : List (Json × Nat) → Json → Nat
  | [], _ => 0
  | (c', n) :: rest, c => if keyEq c' c then n else lookupCount rest c

/-- The total of all stored counts. -/
def sumCounts (m : List (Json × Nat)) : Nat :=
  (m.map Prod.snd).sum

/-- The strict lexicographic order on `(category, count)` pairs, as a
proposition; `pairLt` decides it. -/
def lexLt (a b : String × Nat) : Prop :=
  a.1 < b.1 ∨ (a.1 = b.1 ∧ a.2 < b.2)

/-- A record of the demo catalog used in the spec's scenario. -/
def swordRec : Json := .obj [("name", .str "Sword"), ("category", .str "weapons")]

/-- A record of the demo catalog used in the spec's scenario. -/
def shieldRec : Json := .obj [("name", .str "Shield"), ("category", .str "armor")]

/-- A record of the demo catalog used in the spec's scenario. -/
def breadRec : Json := .obj [("name", .str "Bread"), ("category", .str "food")]

/-- The spec's scenario catalog. -/
def demoCatalog : List (String × Json) :=
  [("1", swordRec), ("2", shieldRec), ("3", breadRec)]

/-- A one-record catalog carrying an extra `price` field. -/
def demoCatalogA : List (String × Json) :=
  [("1", .obj [("name", .str "Sword"), ("category", .str "weapons"), ("price", .num 10)])]

/-- The same record as `demoCatalogA` up to `name` and `category`, with
different extra fields. -/
def demoCatalogB : List (String × Json) :=
  [("1", .obj [("name", .str "Sword"), ("category", .str "weapons"),
               ("price", .num 99), ("rare", .bool true)])]

/-- A catalog whose single record lacks the `category` field. -/
def demoMissingCat : List (String × Json) :=
  [("1", .obj [("name", .str "Mystery")])]

/-- A record with a `category` but no `name`: valid JSON that does not match
the spec's expected record shape. -/
def demoNoName : Json :=
  .obj [("1", .obj [("category", .str "weapons")])]

/-! ## The character-level comparison agrees with the standard string order -/

theorem strLtAux_iff : ∀ as bs, strLtAux as bs = true ↔ List.Lex (· < ·) as bs
  | [], [] => by simp [strLtAux]
  | [], _ :: _ => by simpa [strLtAux] using List.Lex.nil
  | _ :: _, [] => by simp [strLtAux]
  | a :: as, b :: bs => by
    simp only [strLtAux]
    split_ifs with hab hba
    · simp only [true_iff]
      exact List.Lex.rel hab
    · simp only [false_iff]
      intro hlex
      cases hlex with
      | cons h => exact lt_irrefl _ hba
      | rel h => exact lt_asymm h hba
    · have hq : a = b := le_antisymm (le_of_not_lt hba) (le_of_not_lt hab)
      subst hq
      rw [strLtAux_iff as bs]
      constructor
      · exact List.Lex.cons
      · intro hlex
        cases hlex with
        | cons h => exact h
        | rel h => exact absurd h (lt_irrefl a)

theorem strLt_iff (a b : String) : strLt a b = true ↔ a < b := by
  rw [strLt, String.lt_iff_toList_lt]
  exact strLtAux_iff _ _

theorem pairLt_iff (a b : String × Nat) : pairLt a b = true ↔ lexLt a b := by
  simp [pairLt, lexLt, strLt_iff, beq_iff_eq]

theorem lexLt_irrefl (a : String × Nat) : ¬ lexLt a a := by
  simp [lexLt]

theorem lexLt_trans {a b c : String × Nat} (h1 : lexLt a b) (h2 : lexLt b c) : lexLt a c := by
  rcases h1 with h1 | ⟨h1e, h1n⟩ <;> rcases h2 with h2 | ⟨h2e, h2n⟩
  · exact Or.inl (lt_trans h1 h2)
  · exact Or.inl (h2e ▸ h1)
  · exact Or.inl (h1e ▸ h2)
  · exact Or.inr ⟨h1e.trans h2e, lt_trans h1n h2n⟩

theorem lexLt_asymm {a b : String × Nat} (h : lexLt a b) : ¬ lexLt b a :=
  fun h' => lexLt_irrefl a (lexLt_trans h h')

theorem lexLt_connex {a b : String × Nat} (h1 : ¬ lexLt a b) (h2 : ¬ lexLt b a) : a = b := by
  rcases lt_trichotomy a.1 b.1 with h | h | h
  · exact absurd (Or.inl h) h1
  · rcases lt_trichotomy a.2 b.2 with h' | h' | h'
    · exact absurd (Or.inr ⟨h, h'⟩) h1
    · exact Prod.ext h h'
    · exact absurd (Or.inr ⟨h.symm, h'⟩) h2
  · exact absurd (Or.inl h) h2

/-! ## The insertion sort is a permutation and sorts strictly when keys are
distinct -/

theorem insertPair_perm (a : String × Nat) : ∀ l, List.Perm (insertPair a l) (a :: l)
  | [] => List.Perm.refl _
  | b :: rest => by
    rw [insertPair]
    split_ifs
    · exact ((insertPair_perm a rest).cons b).trans (List.Perm.swap a b rest)
    · exact List.Perm.refl _

theorem mem_insertPair {x a : String × Nat} {l : List (String × Nat)} :
    x ∈ insertPair a l ↔ x = a ∨ x ∈ l := by
  rw [(insertPair_perm a l).mem_iff, List.mem_cons]

theorem insertPair_pairwise {a : String × Nat} : ∀ {l : List (String × Nat)},
    l.Pairwise (fun x y => ¬ lexLt y x) → (insertPair a l).Pairwise (fun x y => ¬ lexLt y x)
  | [], _ => by simp [insertPair]
  | b :: rest, h => by
    rw [List.pairwise_cons] at h
    obtain ⟨hb, hrest⟩ := h
    rw [insertPair]
    split_ifs with hlt
    · rw [List.pairwise_cons]
      refine ⟨?_, insertPair_pairwise hrest⟩
      intro x hx
      rcases mem_insertPair.mp hx with rfl | hx
      · exact lexLt_asymm ((pairLt_iff b x).mp hlt)
      · exact hb x hx
    · have hba : ¬ lexLt b a := fun hc => hlt ((pairLt_iff b a).mpr hc)
      rw [List.pairwise_cons]
      refine ⟨?_, List.pairwise_cons.mpr ⟨hb, hrest⟩⟩
      intro x hx
      rcases List.mem_cons.mp hx with rfl | hx
      · exact hba
      · intro hxa
        have hxb : ¬ lexLt x b := hb x hx
        by_cases hbx : lexLt b x
        · exact hba (lexLt_trans hbx hxa)
        · have hq := lexLt_connex hbx hxb
          subst hq
          exact hba hxa

theorem sortPairs_perm : ∀ l, List.Perm (sortPairs l) l
  | [] => List.Perm.refl _
  | a :: rest => by
    rw [sortPairs]
    exact (insertPair_perm a (sortPairs rest)).trans ((sortPairs_perm rest).cons a)

theorem sortPairs_pairwise : ∀ l : List (String × Nat),
    (sortPairs l).Pairwise (fun x y => ¬ lexLt y x)
  | [] => by simp [sortPairs]
  | a :: rest => by
    rw [sortPairs]
    exact insertPair_pairwise (sortPairs_pairwise rest)

/-! ## The comprehension computes a filter -/

theorem filterCat_ok_eq {cat : String} {kvs l : List (String × Json)}
    (h : filterCat cat kvs = .ok l) : l = kvs.filter (fun p => matchesCat p.2 cat) := by
  induction kvs using filterCat.induct cat generalizing l with
  | case1 =>
    simp only [filterCat, Except.ok.injEq] at h
    simp [← h]
  | case2 k v fs e hg =>
    rw [filterCat, hg] at h
    exact absurd h (by simp)
  | case3 k v fs c hg e hf ih =>
    rw [filterCat, hg, hf] at h
    exact absurd h (by simp)
  | case4 k v fs c hg tail hf ih =>
    rw [filterCat, hg, hf] at h
    simp only [Except.ok.injEq] at h
    rw [List.filter_cons, ← ih hf, ← h]
    cases c with
    | str s =>
      by_cases hs : s = cat
      · simp [matchesCat, hg, hs]
      · simp [matchesCat, hg, hs]
    | null => simp [matchesCat, hg]
    | bool b => simp [matchesCat, hg]
    | num n => simp [matchesCat, hg]
    | arr xs => simp [matchesCat, hg]
    | obj fs2 => simp [matchesCat, hg]

theorem filterCat_isOk {cat : String} {kvs : List (String × Json)}
    (h : ∀ p ∈ kvs, ∃ c, getKey p.2 "category" = .ok c) :
    filterCat cat kvs = .ok (kvs.filter (fun p => matchesCat p.2 cat)) := by
  induction kvs with
  | nil => simp [filterCat]
  | cons p rest ih =>
    obtain ⟨k, v⟩ := p
    obtain ⟨c, hg⟩ := h (k, v) (List.mem_cons_self _ _)
    have hrest := ih (fun q hq => h q (List.mem_cons_of_mem _ hq))
    rw [filterCat, hg, hrest, List.filter_cons]
    cases c with
    | str s =>
      by_cases hs : s = cat
      · simp [matchesCat, hg, hs]
      · simp [matchesCat, hg, hs]
    | null => simp [matchesCat, hg]
    | bool b => simp [matchesCat, hg]
    | num n => simp [matchesCat, hg]
    | arr xs => simp [matchesCat, hg]
    | obj fs2 => simp [matchesCat, hg]

/-- C1: for every catalog whose records all carry a `category` field, and for
every category string and limit, `sampleByCategory` returns exactly the first
`limit` entries, in catalog iteration order, whose `category` equals the
requested category; it returns all matches (in original order) when fewer
than `limit` match, the empty sequence (not an error) when none match, and
never more than `limit` entries. -/
theorem sampleByCategory_spec (kvs : List (String × Json)) (cat : String) (limit : Nat)
    (h : ∀ p ∈ kvs, ∃ c, getKey p.2 "category" = .ok c) :
    ∃ s, sampleByCategory kvs cat limit = .ok s ∧
      s = (kvs.filter fun p => matchesCat p.2 cat).take limit ∧
      s.length ≤ limit ∧
      ((kvs.filter fun p => matchesCat p.2 cat).length ≤ limit →
        s = kvs.filter fun p => matchesCat p.2 cat) ∧
      ((∀ p ∈ kvs, matchesCat p.2 cat = false) → s = []) := by
  refine ⟨(kvs.filter fun p => matchesCat p.2 cat).take limit, ?_, rfl, ?_, ?_, ?_⟩
  · rw [sampleByCategory, filterCat_isOk h]
    rfl
  · rw [List.length_take]
    exact min_le_left _ _
  · intro hle
    exact List.take_of_length_le hle
  · intro hnone
    have hnil : kvs.filter (fun p => matchesCat p.2 cat) = [] :=
      List.filter_eq_nil_iff.mpr (by simpa using hnone)
    rw [hnil, List.take_nil]

/-- Witness for C1 at the spec's scenario catalog. -/
theorem sampleByCategory_spec_witness :
    ∃ s, sampleByCategory demoCatalog "weapons" 10 = .ok s ∧
      s = (demoCatalog.filter fun p => matchesCat p.2 "weapons").take 10 ∧
      s.length ≤ 10 ∧
      ((demoCatalog.filter fun p => matchesCat p.2 "weapons").length ≤ 10 →
        s = demoCatalog.filter fun p => matchesCat p.2 "weapons") ∧
      ((∀ p ∈ demoCatalog, matchesCat p.2 "weapons" = false) → s = []) :=
  sampleByCategory_spec demoCatalog "weapons" 10 (by
    intro p hp
    simp only [demoCatalog, List.mem_cons] at hp
    rcases hp with rfl | rfl | rfl | hp
    · exact ⟨Json.str "weapons", rfl⟩
    · exact ⟨Json.str "armor", rfl⟩
    · exact ⟨Json.str "food", rfl⟩
    · exact absurd hp (List.not_mem_nil p))

/-! ## The tally dict -/

theorem keyEq_sound : ∀ {a b : Json}, keyEq a b = true → a = b := by
  intro a b h
  cases a <;> cases b <;> simp_all [keyEq]

theorem keyEq_str_self (s : String) : keyEq (Json.str s) (Json.str s) = true := by
  simp [keyEq]

theorem keyEq_str_iff (s t : String) : keyEq (Json.str s) (Json.str t) = true ↔ s = t := by
  simp [keyEq]

theorem sumCounts_bump : ∀ (m : List (Json × Nat)) (c : Json),
    sumCounts (bump m c) = sumCounts m + 1
  | [], c => by simp [bump, sumCounts]
  | (c', n) :: rest, c => by
    rw [bump]
    split_ifs with h
    · simp only [sumCounts, List.map_cons, List.sum_cons]
      omega
    · simp only [sumCounts, List.map_cons, List.sum_cons]
      have ih := sumCounts_bump rest c
      simp only [sumCounts] at ih
      omega

theorem bump_str_cases (s : String) : ∀ m : List (Json × Nat),
    (Json.str s ∈ keysOf m ∧ keysOf (bump m (Json.str s)) = keysOf m) ∨
    (Json.str s ∉ keysOf m ∧ keysOf (bump m (Json.str s)) = keysOf m ++ [Json.str s])
  | [] => by simp [bump, keysOf]
  | (c', n) :: rest => by
    rw [bump]
    split_ifs with h
    · left
      have hc : c' = Json.str s := keyEq_sound h
      subst hc
      simp [keysOf]
    · have hne : c' ≠ Json.str s := fun hc => h (hc ▸ keyEq_str_self s)
      rcases bump_str_cases s rest with ⟨hmem, hkeys⟩ | ⟨hmem, hkeys⟩
      · left
        simp [keysOf, List.mem_cons] at hmem ⊢
        exact ⟨Or.inr hmem, by simpa [keysOf] using hkeys⟩
      · right
        constructor
        · simp only [keysOf, List.map_cons, List.mem_cons]
          rintro (hc | hc)
          · exact hne hc.symm
          · exact hmem (by simpa [keysOf] using hc)
        · simp only [keysOf, List.map_cons, List.cons_append, List.cons.injEq, true_and]
          simpa [keysOf] using hkeys

theorem mem_keysOf_bump_str {x : Json} {s : String} {m : List (Json × Nat)} :
    x ∈ keysOf (bump m (Json.str s)) ↔ x ∈ keysOf m ∨ x = Json.str s := by
  rcases bump_str_cases s m with ⟨hmem, hkeys⟩ | ⟨hmem, hkeys⟩
  · rw [hkeys]
    constructor
    · exact Or.inl
    · rintro (hx | rfl)
      · exact hx
      · exact hmem
  · rw [hkeys, List.mem_append, List.mem_singleton]

theorem nodup_keysOf_bump_str {s : String} {m : List (Json × Nat)}
    (h : (keysOf m).Nodup) : (keysOf (bump m (Json.str s))).Nodup := by
  rcases bump_str_cases s m with ⟨hmem, hkeys⟩ | ⟨hmem, hkeys⟩
  · rwa [hkeys]
  · rw [hkeys]
    simp [List.nodup_append, h, hmem]

theorem lookupCount_bump_self (s : String) : ∀ m : List (Json × Nat),
    lookupCount (bump m (Json.str s)) (Json.str s) = lookupCount m (Json.str s) + 1
  | [] => by simp [bump, lookupCount, keyEq_str_self]
  | (c', n) :: rest => by
    rw [bump]
    split_ifs with h
    · have hc : c' = Json.str s := keyEq_sound h
      subst hc
      simp [lookupCount, keyEq_str_self]
    · rw [lookupCount, lookupCount, if_neg h, if_neg h]
      exact lookupCount_bump_self s rest

theorem lookupCount_bump_other {c : Json} {s : String}
    (hne : keyEq c (Json.str s) = false) : ∀ m : List (Json × Nat),
    lookupCount (bump m c) (Json.str s) = lookupCount m (Json.str s)
  | [] => by simp [bump, lookupCount, hne]
  | (c', n) :: rest => by
    rw [bump]
    split_ifs with h
    · have hc : c' = c := keyEq_sound h
      subst hc
      rw [lookupCount, lookupCount, hne]
      simp
    · rw [lookupCount, lookupCount]
      split_ifs with h'
      · rfl
      · exact lookupCount_bump_other hne rest

/-- The master invariant of the tally loop, for catalogs whose records all
carry string-valued `category` fields: the loop succeeds, its key set is the
keys of the accumulator plus the categories observed, each string key counts
the matching records on top of its accumulated count, distinctness of keys is
preserved, and the total grows by the number of records. -/
theorem countLoop_master : ∀ (vals : List Json) (acc : List (Json × Nat)),
    (∀ v ∈ vals, ∃ s, getKey v "category" = .ok (Json.str s)) →
    ∃ m, countLoop vals acc = .ok m ∧
      (∀ x, x ∈ keysOf m ↔ (x ∈ keysOf acc ∨ ∃ v ∈ vals, getKey v "category" = .ok x)) ∧
      (∀ t, lookupCount m (Json.str t) =
        lookupCount acc (Json.str t) + (vals.filter (fun v => matchesCat v t)).length) ∧
      ((keysOf acc).Nodup → (keysOf m).Nodup) ∧
      sumCounts m = sumCounts acc + vals.length
  | [], acc => by
    intro _
    exact ⟨acc, rfl, by simp, by simp [countLoop], fun h => h, by simp⟩
  | v :: rest, acc => by
    intro h
    obtain ⟨s, hg⟩ := h v (List.mem_cons_self _ _)
    obtain ⟨m, hok, hmem, hcnt, hnd, hsum⟩ :=
      countLoop_master rest (bump acc (Json.str s))
        (fun w hw => h w (List.mem_cons_of_mem _ hw))
    refine ⟨m, ?_, ?_, ?_, ?_, ?_⟩
    · rw [countLoop, hg]
      exact hok
    · intro x
      rw [hmem x, mem_keysOf_bump_str]
      simp only [List.mem_cons, exists_eq_or_imp, hg, Except.ok.injEq]
      constructor
      · rintro ((hx | rfl) | hx)
        · exact Or.inl hx
        · exact Or.inr (Or.inl rfl)
        · exact Or.inr (Or.inr hx)
      · rintro (hx | (hx | hx))
        · exact Or.inl (Or.inl hx)
        · exact Or.inl (Or.inr hx.symm)
        · exact Or.inr hx
    · intro t
      rw [hcnt t, List.filter_cons]
      by_cases hst : s = t
      · subst hst
        have hm : matchesCat v s = true := by simp [matchesCat, hg]
        rw [lookupCount_bump_self]
        simp [hm]
        omega
      · have hm : matchesCat v t = false := by simp [matchesCat, hg, hst]
        have hne : keyEq (Json.str s) (Json.str t) = false := by
          simpa [keyEq] using hst
        rw [lookupCount_bump_other hne]
        simp [hm]
    · intro hacc
      exact hnd (nodup_keysOf_bump_str hacc)
    · rw [hsum, sumCounts_bump, List.length_cons]
      omega

/-- C2: for every catalog whose records all carry a (string) `category`
field, `countByCategory` returns a tally whose key set is exactly the set of
`category` values occurring in the catalog — no predefined category list
enters — and which assigns to each category the number of records whose
`category` equals it. -/
theorem countByCategory_spec (kvs : List (String × Json))
    (h : ∀ p ∈ kvs, ∃ s, getKey p.2 "category" = .ok (Json.str s)) :
    ∃ m, countByCategory (kvs.map Prod.snd) = .ok m ∧
      (∀ c, c ∈ keysOf m ↔ ∃ p ∈ kvs, getKey p.2 "category" = .ok c) ∧
      (∀ t, lookupCount m (Json.str t) =
        ((kvs.map Prod.snd).filter (fun v => matchesCat v t)).length) := by
  have hvals : ∀ v ∈ kvs.map Prod.snd, ∃ s, getKey v "category" = .ok (Json.str s) := by
    intro v hv
    obtain ⟨p, hp, rfl⟩ := List.mem_map.mp hv
    exact h p hp
  obtain ⟨m, hok, hmem, hcnt, _, _⟩ := countLoop_master (kvs.map Prod.snd) [] hvals
  refine ⟨m, hok, ?_, ?_⟩
  · intro c
    rw [hmem c]
    simp only [keysOf, List.map_nil, List.not_mem_nil, false_or, List.mem_map]
    constructor
    · rintro ⟨v, ⟨p, hp, rfl⟩, hgv⟩
      exact ⟨p, hp, hgv⟩
    · rintro ⟨p, hp, hgp⟩
      exact ⟨p.2, ⟨p, hp, rfl⟩, hgp⟩
  · intro t
    have hc := hcnt t
    simpa [lookupCount] using hc

/-- Witness for C2 at the spec's scenario catalog. -/
theorem countByCategory_spec_witness :
    ∃ m, countByCategory (demoCatalog.map Prod.snd) = .ok m ∧
      (∀ c, c ∈ keysOf m ↔ ∃ p ∈ demoCatalog, getKey p.2 "category" = .ok c) ∧
      (∀ t, lookupCount m (Json.str t) =
        ((demoCatalog.map Prod.snd).filter (fun v => matchesCat v t)).length) :=
  countByCategory_spec demoCatalog (by
    intro p hp
    simp only [demoCatalog, List.mem_cons] at hp
    rcases hp with rfl | rfl | rfl | hp
    · exact ⟨"weapons", rfl⟩
    · exact ⟨"armor", rfl⟩
    · exact ⟨"food", rfl⟩
    · exact absurd hp (List.not_mem_nil p))

/-- C3: for every catalog whose records all carry a (string) `category`
field, the counts returned by `countByCategory` sum to the number of records
in the catalog. -/
theorem countByCategory_total (kvs : List (String × Json))
    (h : ∀ p ∈ kvs, ∃ s, getKey p.2 "category" = .ok (Json.str s)) :
    ∃ m, countByCategory (kvs.map Prod.snd) = .ok m ∧ sumCounts m = kvs.length := by
  have hvals : ∀ v ∈ kvs.map Prod.snd, ∃ s, getKey v "category" = .ok (Json.str s) := by
    intro v hv
    obtain ⟨p, hp, rfl⟩ := List.mem_map.mp hv
    exact h p hp
  obtain ⟨m, hok, _, _, _, hsum⟩ := countLoop_master (kvs.map Prod.snd) [] hvals
  refine ⟨m, hok, ?_⟩
  rw [hsum]
  simp [sumCounts]

/-- C7: on the spec's scenario catalog, the weapons sample is exactly
`[("1", Sword)]` and the counts are `armor 1, food 1, weapons 1`. -/
theorem scenario_report :
    sampleByCategory demoCatalog "weapons" 10 = .ok [("1", swordRec)] ∧
    getKey swordRec "name" = .ok (Json.str "Sword") ∧
    countByCategory (demoCatalog.map Prod.snd) =
      .ok [(Json.str "weapons", 1), (Json.str "armor", 1), (Json.str "food", 1)] ∧
    sortCounts [(Json.str "weapons", 1), (Json.str "armor", 1), (Json.str "food", 1)] =
      .ok [("armor", 1), ("food", 1), ("weapons", 1)] ∧
    lookupCount [(Json.str "weapons", 1), (Json.str "armor", 1), (Json.str "food", 1)]
      (Json.str "armor") = 1 :=
  ⟨rfl, rfl, rfl, rfl, rfl⟩

/-- C6: running on a path that does not exist raises `NotFoundError`, prints
nothing to standard output, and exits with a nonzero status; no partial
report follows the load failure. -/
theorem missingPath_behavior :
    runProgram .notFound = ([], some PyErr.notFoundError) ∧
    exitCode (runProgram .notFound) ≠ 0 :=
  ⟨rfl, by decide⟩

/-- If every record is a dict and some record lacks the `category` key, the
comprehension aborts with `KeyError('category')`. -/
theorem filterCat_keyError (cat : String) : ∀ {kvs : List (String × Json)},
    (∀ p ∈ kvs, ∃ fs, p.2 = Json.obj fs) →
    (∃ p ∈ kvs, getKey p.2 "category" = .error (.keyError "category")) →
    filterCat cat kvs = .error (.keyError "category")
  | [], _, h2 => by
    rcases h2 with ⟨p, hp, _⟩
    exact absurd hp (List.not_mem_nil p)
  | (k, v) :: rest, h1, h2 => by
    cases hg : getKey v "category" with
    | error e =>
      obtain ⟨fs, hv⟩ := h1 (k, v) (List.mem_cons_self _ _)
      subst hv
      have hk : getKey (Json.obj fs) "category" = .error (.keyError "category") := by
        rw [getKey] at hg ⊢
        cases hl : lookupField fs "category" with
        | some x =>
          rw [hl] at hg
          exact absurd hg (by simp)
        | none => rfl
      rw [filterCat, hk]
    | ok c =>
      have hrest : ∃ p ∈ rest, getKey p.2 "category" = .error (.keyError "category") := by
        rcases h2 with ⟨p, hp, hperr⟩
        rcases List.mem_cons.mp hp with rfl | hp
        · rw [hg] at hperr
          exact absurd hperr (by simp)
        · exact ⟨p, hp, hperr⟩
      have ihh := filterCat_keyError cat
        (fun p hp => h1 p (List.mem_cons_of_mem _ hp)) hrest
      rw [filterCat, hg, ihh]

/-- C9: on a catalog of records (dicts) at least one of which lacks the
`category` field, the script dies with `KeyError('category')` during the
first sampling comprehension — the record is neither skipped nor defaulted —
having printed only the weapons header; in particular no counts section is
produced. -/
theorem missingCategory_crash (kvs : List (String × Json))
    (h1 : ∀ p ∈ kvs, ∃ fs, p.2 = Json.obj fs)
    (h2 : ∃ p ∈ kvs, getKey p.2 "category" = .error (.keyError "category")) :
    scriptRun (Json.obj kvs) = ([weaponsHeader], some (PyErr.keyError "category")) := by
  have hf : filterCat "weapons" kvs = .error (.keyError "category") :=
    filterCat_keyError "weapons" h1 h2
  have hs : sampleSection (Json.obj kvs) weaponsHeader "weapons" =
      ([weaponsHeader], some (PyErr.keyError "category")) := by
    have hb : (items (Json.obj kvs)).bind (filterCat "weapons") =
        .error (.keyError "category") := by
      simpa [items, Except.bind] using hf
    rw [sampleSection, hb]
  rw [scriptRun, hs]
  rfl

/-- Witness for C9 at a one-record catalog lacking `category`. -/
theorem missingCategory_crash_witness :
    scriptRun (Json.obj demoMissingCat) = ([weaponsHeader], some (PyErr.keyError "category")) :=
  missingCategory_crash demoMissingCat
    (by
      intro p hp
      simp only [demoMissingCat, List.mem_cons] at hp
      rcases hp with rfl | hp
      · exact ⟨[("name", Json.str "Mystery")], rfl⟩
      · exact absurd hp (List.not_mem_nil p))
    ⟨("1", Json.obj [("name", Json.str "Mystery")]), by simp [demoMissingCat], rfl⟩

/-! ## After a successful parse, no `ParseError` can arise -/

theorem getKey_no_parse (v : Json) (key : String) :
    ∀ e, getKey v key = .error e → e ≠ PyErr.parseError := by
  intro e he hpe
  subst hpe
  cases v with
  | obj fields =>
    rw [getKey] at he
    cases hl : lookupField fields key with
    | some x =>
      rw [hl] at he
      exact absurd he (by simp)
    | none =>
      rw [hl] at he
      exact absurd he (by simp)
  | null => exact absurd he (by simp [getKey])
  | bool b => exact absurd he (by simp [getKey])
  | num n => exact absurd he (by simp [getKey])
  | str s => exact absurd he (by simp [getKey])
  | arr xs => exact absurd he (by simp [getKey])

theorem filterCat_no_parse (cat : String) : ∀ (kvs : List (String × Json)) {e : PyErr},
    filterCat cat kvs = .error e → e ≠ PyErr.parseError
  | [], e, he => by simp [filterCat] at he
  | (k, v) :: rest, e, he => by
    rw [filterCat] at he
    cases hg : getKey v "category" with
    | error e' =>
      rw [hg] at he
      simp only [Except.error.injEq] at he
      subst he
      exact getKey_no_parse v "category" e' hg
    | ok c =>
      rw [hg] at he
      cases hf : filterCat cat rest with
      | error e' =>
        rw [hf] at he
        simp only [Except.error.injEq] at he
        subst he
        exact filterCat_no_parse cat rest hf
      | ok tail =>
        rw [hf] at he
        exact absurd he (by simp)

theorem sampleLines_no_parse : ∀ l : List (String × Json),
    (sampleLines l).2 ≠ some PyErr.parseError
  | [] => by simp [sampleLines]
  | (k, v) :: rest => by
    rw [sampleLines]
    cases hg : getKey v "name" with
    | error e =>
      intro hc
      have he : e = PyErr.parseError := by simpa using hc
      exact getKey_no_parse v "name" e hg he
    | ok n =>
      intro hc
      have hr : (sampleLines rest).2 = some PyErr.parseError := by simpa using hc
      exact sampleLines_no_parse rest hr

theorem itemsFilter_no_parse (data : Json) (cat : String) {e : PyErr}
    (h : (items data).bind (filterCat cat) = .error e) : e ≠ PyErr.parseError := by
  cases data with
  | obj fields =>
    have hf : filterCat cat fields = .error e := by
      simpa [items, Except.bind] using h
    exact filterCat_no_parse cat fields hf
  | null => simp [items, Except.bind] at h; simp [← h]
  | bool b => simp [items, Except.bind] at h; simp [← h]
  | num n => simp [items, Except.bind] at h; simp [← h]
  | str s => simp [items, Except.bind] at h; simp [← h]
  | arr xs => simp [items, Except.bind] at h; simp [← h]

theorem sampleSection_no_parse (data : Json) (header cat : String) :
    (sampleSection data header cat).2 ≠ some PyErr.parseError := by
  rw [sampleSection]
  cases hb : (items data).bind (filterCat cat) with
  | error e =>
    intro hc
    have he : e = PyErr.parseError := by simpa using hc
    exact itemsFilter_no_parse data cat hb he
  | ok sel =>
    intro hc
    have hr : (sampleLines (sel.take 10)).2 = some PyErr.parseError := by simpa using hc
    exact sampleLines_no_parse (sel.take 10) hr

theorem countLoop_no_parse : ∀ (vals : List Json) (acc : List (Json × Nat)) {e : PyErr},
    countLoop vals acc = .error e → e ≠ PyErr.parseError
  | [], acc, e, he => by simp [countLoop] at he
  | v :: rest, acc, e, he => by
    rw [countLoop] at he
    cases hg : getKey v "category" with
    | error e' =>
      rw [hg] at he
      simp only [Except.error.injEq] at he
      subst he
      exact getKey_no_parse v "category" e' hg
    | ok c =>
      rw [hg] at he
      have he2 : (if hashable c then countLoop rest (bump acc c)
          else Except.error PyErr.typeError) = .error e := he
      by_cases hh : hashable c
      · rw [if_pos hh] at he2
        exact countLoop_no_parse rest (bump acc c) he2
      · rw [if_neg hh] at he2
        simp only [Except.error.injEq] at he2
        simp [← he2]

theorem countsSection_no_parse (data : Json) :
    (countsSection data).2 ≠ some PyErr.parseError := by
  cases hb : (pyValues data).bind countByCategory with
  | error e =>
    have hr : countsSection data = ([], some e) := by
      simp [countsSection, hb]
    rw [hr]
    simp only [ne_eq, Option.some.injEq]
    intro he
    subst he
    cases data with
    | obj fields =>
      have hf : countByCategory (fields.map Prod.snd) = .error PyErr.parseError := by
        simpa [pyValues, Except.bind] using hb
      exact countLoop_no_parse (fields.map Prod.snd) [] hf rfl
    | null => simp [pyValues, Except.bind] at hb
    | bool b => simp [pyValues, Except.bind] at hb
    | num n => simp [pyValues, Except.bind] at hb
    | str s => simp [pyValues, Except.bind] at hb
    | arr xs => simp [pyValues, Except.bind] at hb
  | ok m =>
    cases hs : sortCounts m with
    | error e =>
      have hr : countsSection data = ([summaryHeader], some e) := by
        simp [countsSection, hb, hs]
      rw [hr]
      simp only [ne_eq, Option.some.injEq]
      intro he
      subst he
      rw [sortCounts] at hs
      cases hk : strKeyPairs m with
      | some sm =>
        rw [hk] at hs
        simp at hs
      | none =>
        rw [hk] at hs
        simp at hs
    | ok sm =>
      have hr : countsSection data = (summaryHeader :: countLines sm, none) := by
        simp [countsSection, hb, hs]
      rw [hr]
      simp

theorem seqOut_no_parse {a : List String × Option PyErr}
    {b : Unit → List String × Option PyErr}
    (ha : a.2 ≠ some PyErr.parseError) (hb : (b ()).2 ≠ some PyErr.parseError) :
    (seqOut a b).2 ≠ some PyErr.parseError := by
  obtain ⟨ls, oe⟩ := a
  cases oe with
  | none => exact hb
  | some e => exact ha

theorem scriptRun_no_parse (j : Json) : (scriptRun j).2 ≠ some PyErr.parseError := by
  rw [scriptRun]
  refine seqOut_no_parse (sampleSection_no_parse j weaponsHeader "weapons") ?_
  refine seqOut_no_parse (sampleSection_no_parse j armorHeader "armor") ?_
  refine seqOut_no_parse (sampleSection_no_parse j foodHeader "food") ?_
  refine seqOut_no_parse (sampleSection_no_parse j resourcesHeader "resources") ?_
  exact countsSection_no_parse j

/-- C5, counterexample to the claim as stated: the file content `"not json"`
is syntactically valid JSON (a string) that does not match the expected
shape, yet the program does not fail with a `ParseError` — the load succeeds
and the crash is an `AttributeError`; likewise a valid JSON object whose
record lacks `name` fails with a `KeyError`, not a `ParseError`. -/
theorem loadShape_counterexample :
    (runProgram (.ok (Json.str "not json"))).2 = some PyErr.attrError ∧
    some PyErr.attrError ≠ some PyErr.parseError ∧
    (runProgram (.ok demoNoName)).2 = some (PyErr.keyError "name") ∧
    some (PyErr.keyError "name") ≠ some PyErr.parseError :=
  ⟨rfl, by decide, rfl, by decide⟩

/-- C5 amended: `load` raises `NotFoundError` for a missing path and
`ParseError` exactly for content that is not syntactically valid JSON.  Once
`json.load` succeeds, no `ParseError` is ever raised: valid JSON of the wrong
shape is loaded successfully and the failure, if any, surfaces later during
report generation as an attribute or key lookup error — the valid JSON string
`"not json"` dies with `AttributeError` at `.items()` after the weapons
header was already printed, and a record lacking `name` dies with
`KeyError('name')`. -/
theorem parseError_only_syntactic :
    runProgram .parseFail = ([], some PyErr.parseError) ∧
    (∀ j : Json, (runProgram (.ok j)).2 ≠ some PyErr.parseError) ∧
    runProgram (.ok (Json.str "not json")) = ([weaponsHeader], some PyErr.attrError) ∧
    runProgram (.ok demoNoName) = ([weaponsHeader], some (PyErr.keyError "name")) :=
  ⟨rfl, fun j => scriptRun_no_parse j, rfl, rfl⟩

/-- In a catalog with duplicate-free keys, a key determines its record. -/
theorem assoc_value_unique : ∀ {kvs : List (String × Json)} {k : String} {v w : Json},
    (kvs.map Prod.fst).Nodup → (k, v) ∈ kvs → (k, w) ∈ kvs → v = w
  | [], _, _, _, _, hv, _ => absurd hv (List.not_mem_nil _)
  | (k0, v0) :: rest, k, v, w, hnd, hv, hw => by
    rw [List.map_cons, List.nodup_cons] at hnd
    obtain ⟨hk0, hndr⟩ := hnd
    rcases List.mem_cons.mp hv with hv1 | hv2 <;> rcases List.mem_cons.mp hw with hw1 | hw2
    · injection hv1 with e1 e2
      injection hw1 with e3 e4
      rw [e2, e4]
    · injection hv1 with e1 e2
      subst e1
      exact absurd (List.mem_map.mpr ⟨(k, w), hw2, rfl⟩) hk0
    · injection hw1 with e3 e4
      subst e3
      exact absurd (List.mem_map.mpr ⟨(k, v), hv2, rfl⟩) hk0
    · exact assoc_value_unique hndr hv2 hw2

/-- A record matches at most one category string. -/
theorem matchesCat_unique {v : Json} {c1 c2 : String}
    (h1 : matchesCat v c1 = true) (h2 : matchesCat v c2 = true) : c1 = c2 := by
  cases hg : getKey v "category" with
  | error e => simp [matchesCat, hg] at h1
  | ok c =>
    cases c with
    | str s =>
      simp only [matchesCat, hg, decide_eq_true_eq] at h1 h2
      rw [← h1, ← h2]
    | null => simp [matchesCat, hg] at h1
    | bool b => simp [matchesCat, hg] at h1
    | num n => simp [matchesCat, hg] at h1
    | arr xs => simp [matchesCat, hg] at h1
    | obj fs => simp [matchesCat, hg] at h1

/-- C10: on a catalog with duplicate-free keys whose samples for two
distinct categories both succeed, the two samples are disjoint: no catalog
key appears in both. -/
theorem samples_disjoint (kvs : List (String × Json)) (cat1 cat2 : String)
    (l1 l2 : Nat) (s1 s2 : List (String × Json))
    (hnd : (kvs.map Prod.fst).Nodup) (hne : cat1 ≠ cat2)
    (h1 : sampleByCategory kvs cat1 l1 = .ok s1)
    (h2 : sampleByCategory kvs cat2 l2 = .ok s2) :
    ∀ k, k ∈ s1.map Prod.fst → k ∉ s2.map Prod.fst := by
  rw [sampleByCategory] at h1 h2
  cases hf1 : filterCat cat1 kvs with
  | error e =>
    rw [hf1] at h1
    exact absurd h1 (by simp [Except.map])
  | ok f1 =>
  cases hf2 : filterCat cat2 kvs with
  | error e =>
    rw [hf2] at h2
    exact absurd h2 (by simp [Except.map])
  | ok f2 =>
    rw [hf1] at h1
    rw [hf2] at h2
    simp only [Except.map, Except.ok.injEq] at h1 h2
    intro k hk1 hk2
    obtain ⟨p1, hp1s, hp1k⟩ := List.mem_map.mp hk1
    obtain ⟨p2, hp2s, hp2k⟩ := List.mem_map.mp hk2
    rw [← h1] at hp1s
    rw [← h2] at hp2s
    have hp1f : p1 ∈ f1 := (List.take_sublist _ _).subset hp1s
    have hp2f : p2 ∈ f2 := (List.take_sublist _ _).subset hp2s
    rw [filterCat_ok_eq hf1] at hp1f
    rw [filterCat_ok_eq hf2] at hp2f
    obtain ⟨hp1kvs, hm1⟩ := List.mem_filter.mp hp1f
    obtain ⟨hp2kvs, hm2⟩ := List.mem_filter.mp hp2f
    have hveq : p1.2 = p2.2 := by
      have e1 : (k, p1.2) ∈ kvs := by
        rw [← hp1k]
        exact hp1kvs
      have e2 : (k, p2.2) ∈ kvs := by
        rw [← hp2k]
        exact hp2kvs
      exact assoc_value_unique hnd e1 e2
    rw [hveq] at hm1
    exact hne (matchesCat_unique hm1 hm2)

/-- Witness for C10: in the scenario catalog the weapons and armor samples
share no key. -/
theorem samples_disjoint_witness :
    "1" ∈ ([("1", swordRec)].map Prod.fst) ∧
    ("1" : String) ∉ ([("2", shieldRec)].map Prod.fst) :=
  ⟨by decide,
   samples_disjoint demoCatalog "weapons" "armor" 10 10 [("1", swordRec)] [("2", shieldRec)]
     (by decide) (by decide) rfl rfl "1" (by decide)⟩

/-! ## The report depends only on keys, `name` fields and `category` fields -/

theorem filterCat_congr (cat : String) {kvs kws : List (String × Json)}
    (h : List.Forall₂ (fun p q : String × Json => p.1 = q.1 ∧
      getKey p.2 "name" = getKey q.2 "name" ∧
      getKey p.2 "category" = getKey q.2 "category") kvs kws) :
    (∃ e, filterCat cat kvs = .error e ∧ filterCat cat kws = .error e) ∨
    (∃ l l', filterCat cat kvs = .ok l ∧ filterCat cat kws = .ok l' ∧
      List.Forall₂ (fun p q : String × Json => p.1 = q.1 ∧
        getKey p.2 "name" = getKey q.2 "name" ∧
        getKey p.2 "category" = getKey q.2 "category") l l') := by
  induction h with
  | nil => exact Or.inr ⟨[], [], rfl, rfl, List.Forall₂.nil⟩
  | @cons p q kvs' kws' hpq htail ih =>
    obtain ⟨k, v⟩ := p
    obtain ⟨k', w⟩ := q
    obtain ⟨hk, hn, hc⟩ := hpq
    cases hg : getKey v "category" with
    | error e =>
      refine Or.inl ⟨e, ?_, ?_⟩
      · rw [filterCat, hg]
      · rw [filterCat, ← hc, hg]
    | ok c =>
      rcases ih with ⟨e, hv, hw⟩ | ⟨l, l', hv, hw, hrel⟩
      · refine Or.inl ⟨e, ?_, ?_⟩
        · rw [filterCat, hg, hv]
        · rw [filterCat, ← hc, hg, hw]
      · refine Or.inr ?_
        cases c with
        | str s =>
          by_cases hs : s = cat
          · refine ⟨(k, v) :: l, (k', w) :: l', ?_, ?_, ?_⟩
            · rw [filterCat, hg, hv]
              simp [hs]
            · rw [filterCat, ← hc, hg, hw]
              simp [hs]
            · exact List.Forall₂.cons ⟨hk, hn, hc⟩ hrel
          · refine ⟨l, l', ?_, ?_, hrel⟩
            · rw [filterCat, hg, hv]
              simp [hs]
            · rw [filterCat, ← hc, hg, hw]
              simp [hs]
        | null =>
          exact ⟨l, l', by rw [filterCat, hg, hv], by rw [filterCat, ← hc, hg, hw], hrel⟩
        | bool b =>
          exact ⟨l, l', by rw [filterCat, hg, hv], by rw [filterCat, ← hc, hg, hw], hrel⟩
        | num n =>
          exact ⟨l, l', by rw [filterCat, hg, hv], by rw [filterCat, ← hc, hg, hw], hrel⟩
        | arr xs =>
          exact ⟨l, l', by rw [filterCat, hg, hv], by rw [filterCat, ← hc, hg, hw], hrel⟩
        | obj fs =>
          exact ⟨l, l', by rw [filterCat, hg, hv], by rw [filterCat, ← hc, hg, hw], hrel⟩

theorem sampleLines_congr {l l' : List (String × Json)}
    (h : List.Forall₂ (fun p q : String × Json => p.1 = q.1 ∧
      getKey p.2 "name" = getKey q.2 "name" ∧
      getKey p.2 "category" = getKey q.2 "category") l l') :
    sampleLines l = sampleLines l' := by
  induction h with
  | nil => rfl
  | @cons p q l₁ l₂ hpq htail ih =>
    obtain ⟨k, v⟩ := p
    obtain ⟨k', w⟩ := q
    obtain ⟨hk, hn, _⟩ := hpq
    have hk2 : k = k' := hk
    have hn2 : getKey v "name" = getKey w "name" := hn
    simp only [sampleLines]
    rw [hk2, hn2, ih]

theorem sampleSection_congr {kvs kws : List (String × Json)} (header cat : String)
    (h : List.Forall₂ (fun p q : String × Json => p.1 = q.1 ∧
      getKey p.2 "name" = getKey q.2 "name" ∧
      getKey p.2 "category" = getKey q.2 "category") kvs kws) :
    sampleSection (Json.obj kvs) header cat = sampleSection (Json.obj kws) header cat := by
  rcases filterCat_congr cat h with ⟨e, hv, hw⟩ | ⟨l, l', hv, hw, hrel⟩
  · have h1 : sampleSection (Json.obj kvs) header cat = ([header], some e) := by
      simp [sampleSection, items, Except.bind, hv]
    have h2 : sampleSection (Json.obj kws) header cat = ([header], some e) := by
      simp [sampleSection, items, Except.bind, hw]
    rw [h1, h2]
  · have hlines : sampleLines (l.take 10) = sampleLines (l'.take 10) :=
      sampleLines_congr (List.forall₂_take 10 hrel)
    have h1 : sampleSection (Json.obj kvs) header cat =
        (header :: (sampleLines (l.take 10)).1, (sampleLines (l.take 10)).2) := by
      simp [sampleSection, items, Except.bind, hv]
    have h2 : sampleSection (Json.obj kws) header cat =
        (header :: (sampleLines (l'.take 10)).1, (sampleLines (l'.take 10)).2) := by
      simp [sampleSection, items, Except.bind, hw]
    rw [h1, h2, hlines]

theorem countLoop_congr {vals vals' : List Json}
    (h : List.Forall₂ (fun v w : Json =>
      getKey v "category" = getKey w "category") vals vals') :
    ∀ acc, countLoop vals acc = countLoop vals' acc := by
  induction h with
  | nil => intro acc; rfl
  | @cons v w rest rest' hvw htail ih =>
    intro acc
    rw [countLoop, countLoop, hvw]
    cases hg : getKey w "category" with
    | error e => rfl
    | ok c =>
      show (if hashable c then countLoop rest (bump acc c) else .error PyErr.typeError) =
        (if hashable c then countLoop rest' (bump acc c) else .error PyErr.typeError)
      by_cases hh : hashable c
      · rw [if_pos hh, if_pos hh, ih]
      · rw [if_neg hh, if_neg hh]

theorem countsSection_congr {kvs kws : List (String × Json)}
    (h : List.Forall₂ (fun p q : String × Json => p.1 = q.1 ∧
      getKey p.2 "name" = getKey q.2 "name" ∧
      getKey p.2 "category" = getKey q.2 "category") kvs kws) :
    countsSection (Json.obj kvs) = countsSection (Json.obj kws) := by
  have hvals : List.Forall₂ (fun v w : Json =>
      getKey v "category" = getKey w "category")
      (kvs.map Prod.snd) (kws.map Prod.snd) := by
    induction h with
    | nil => exact List.Forall₂.nil
    | cons hpq htail ih => exact List.Forall₂.cons hpq.2.2 ih
  have hb : (pyValues (Json.obj kvs)).bind countByCategory =
      (pyValues (Json.obj kws)).bind countByCategory := by
    simp only [pyValues, Except.bind, countByCategory]
    exact countLoop_congr hvals []
  rw [countsSection, countsSection, hb]

/-- C8: two catalogs that agree keywise on every record's `name` and
`category` fields — but may differ arbitrarily in any other fields — produce
the very same report: identical output lines and identical error, if any. -/
theorem report_ignores_other_fields (kvs kws : List (String × Json))
    (h : List.Forall₂ (fun p q : String × Json => p.1 = q.1 ∧
      getKey p.2 "name" = getKey q.2 "name" ∧
      getKey p.2 "category" = getKey q.2 "category") kvs kws) :
    scriptRun (Json.obj kvs) = scriptRun (Json.obj kws) := by
  have h1 := sampleSection_congr weaponsHeader "weapons" h
  have h2 := sampleSection_congr armorHeader "armor" h
  have h3 := sampleSection_congr foodHeader "food" h
  have h4 := sampleSection_congr resourcesHeader "resources" h
  have h5 := countsSection_congr h
  simp only [scriptRun, h1, h2, h3, h4, h5]

/-- Witness for C8: two one-record catalogs with the same `name` and
`category` but different extra fields yield the same report. -/
theorem report_ignores_other_fields_witness :
    demoCatalogA ≠ demoCatalogB ∧
    scriptRun (Json.obj demoCatalogA) = scriptRun (Json.obj demoCatalogB) :=
  ⟨by simp [demoCatalogA, demoCatalogB],
   report_ignores_other_fields demoCatalogA demoCatalogB
     (List.Forall₂.cons ⟨rfl, rfl, rfl⟩ List.Forall₂.nil)⟩

theorem strKeyPairs_of : ∀ {m : List (Json × Nat)},
    (∀ x ∈ keysOf m, ∃ s, x = Json.str s) →
    ∃ sm, strKeyPairs m = some sm ∧ m = sm.map (fun q => (Json.str q.1, q.2))
  | [], _ => ⟨[], rfl, rfl⟩
  | (c, n) :: rest, h => by
    obtain ⟨s, rfl⟩ := h c (by simp [keysOf])
    obtain ⟨sm, hsm, hmeq⟩ :=
      strKeyPairs_of (fun x hx => h x (by simp [keysOf] at hx ⊢; exact Or.inr hx))
    refine ⟨(s, n) :: sm, ?_, ?_⟩
    · rw [strKeyPairs, hsm]
      rfl
    · rw [List.map_cons, ← hmeq]

/-- C4: for every catalog whose records all carry a (string) `category`
field, the summary section succeeds and the sequence of `(category, count)`
pairs it emits is in strictly ascending alphabetical order of category name,
with no duplicate category. -/
theorem countsSection_sorted (kvs : List (String × Json))
    (h : ∀ p ∈ kvs, ∃ s, getKey p.2 "category" = .ok (Json.str s)) :
    ∃ m sm, countByCategory (kvs.map Prod.snd) = .ok m ∧ sortCounts m = .ok sm ∧
      countsSection (Json.obj kvs) = (summaryHeader :: countLines sm, none) ∧
      sm.Pairwise (fun a b => a.1 < b.1) ∧ (sm.map Prod.fst).Nodup := by
  have hvals : ∀ v ∈ kvs.map Prod.snd, ∃ s, getKey v "category" = .ok (Json.str s) := by
    intro v hv
    obtain ⟨p, hp, rfl⟩ := List.mem_map.mp hv
    exact h p hp
  obtain ⟨m, hok, hmem, _, hnd, _⟩ := countLoop_master (kvs.map Prod.snd) [] hvals
  have hstr : ∀ x ∈ keysOf m, ∃ s, x = Json.str s := by
    intro x hx
    rcases (hmem x).mp hx with hx0 | ⟨v, hv, hg⟩
    · exact absurd hx0 (by simp [keysOf])
    · obtain ⟨s, hs⟩ := hvals v hv
      rw [hs] at hg
      exact ⟨s, (Except.ok.inj hg).symm⟩
  obtain ⟨sm0, hsome, hmeq⟩ := strKeyPairs_of hstr
  have hsort : sortCounts m = .ok (sortPairs sm0) := by
    rw [sortCounts, hsome]
  have hnodup0 : (sm0.map Prod.fst).Nodup := by
    have h1 : (keysOf m).Nodup := hnd (by simp [keysOf])
    have h2 : keysOf m = (sm0.map Prod.fst).map Json.str := by
      rw [keysOf, hmeq, List.map_map, List.map_map]
      rfl
    rw [h2] at h1
    exact h1.of_map Json.str
  have hnodup : ((sortPairs sm0).map Prod.fst).Nodup :=
    (((sortPairs_perm sm0).map Prod.fst).nodup_iff).mpr hnodup0
  have hne : (sortPairs sm0).Pairwise (fun a b => a.1 ≠ b.1) := by
    rw [List.Nodup, List.pairwise_map] at hnodup
    exact hnodup
  have hstrict : (sortPairs sm0).Pairwise (fun a b => a.1 < b.1) := by
    have hcomb := (sortPairs_pairwise sm0).and hne
    refine hcomb.imp ?_
    rintro a b ⟨hnlt, hab⟩
    rcases lt_trichotomy a.1 b.1 with hlt | heq | hgt
    · exact hlt
    · exact absurd heq hab
    · exact absurd (Or.inl hgt) hnlt
  refine ⟨m, sortPairs sm0, hok, hsort, ?_, hstrict, hnodup⟩
  have h1 : (pyValues (Json.obj kvs)).bind countByCategory = .ok m := by
    simpa [pyValues, Except.bind] using hok
  simp [countsSection, h1, hsort]

/-- Witness for C4 at the spec's scenario catalog. -/
theorem countsSection_sorted_witness :
    ∃ m sm, countByCategory (demoCatalog.map Prod.snd) = .ok m ∧ sortCounts m = .ok sm ∧
      countsSection (Json.obj demoCatalog) = (summaryHeader :: countLines sm, none) ∧
      sm.Pairwise (fun a b => a.1 < b.1) ∧ (sm.map Prod.fst).Nodup :=
  countsSection_sorted demoCatalog (by
    intro p hp
    simp only [demoCatalog, List.mem_cons] at hp
    rcases hp with rfl | rfl | rfl | hp
    · exact ⟨"weapons", rfl⟩
    · exact ⟨"armor", rfl⟩
    · exact ⟨"food", rfl⟩
    · exact absurd hp (List.not_mem_nil p))

/-- Witness for C3 at the spec's scenario catalog. -/
theorem countByCategory_total_witness :
    ∃ m, countByCategory (demoCatalog.map Prod.snd) = .ok m ∧
      sumCounts m = demoCatalog.length :=
  countByCategory_total demoCatalog (by
    intro p hp
    simp only [demoCatalog, List.mem_cons] at hp
    rcases hp with rfl | rfl | rfl | hp
    · exact ⟨"weapons", rfl⟩
    · exact ⟨"armor", rfl⟩
    · exact ⟨"food", rfl⟩
    · exact absurd hp (List.not_mem_nil p))

end ShowSamples
